import Mathlib

/-!
Shallow embedding of the TaskFlow dependency-graph engine.

The definitions below are translated from the repository's route handlers
and analysis code:

* `src/app/api/tasks/[id]/route.ts` (task-update endpoint, `PUT`), with its
  helpers `checkCircularDependencies`, `hasCircularDependency` and
  `convertStatusToEnum`;
* `src/app/api/tasks/[id]/dependencies/route.ts` (dependencies endpoint,
  `POST`), with its helpers `checkCircularDependencies` /
  `hasCircularDependency` (the route-local variants);
* `src/app/api/tasks/route.ts` (task creation, `POST`);
* `src/app/api/tasks/analysis/route.ts` with `calculateEarliestStartDates`,
  `calculateEarliestStartDate`, `findCriticalPath`, `dfs` and
  `calculateTotalDuration`.

Dates are modelled as `Int` milliseconds since the epoch (`new Date(0)` is
`0`), statuses and priorities as the stored enum strings, and the Prisma
store as a list of task records.  JavaScript `Set` objects are threaded as
lists (membership only), JavaScript objects / `Map`s as association lists
whose assignment replaces the value of an existing key.  Mutable state that
the source shares across recursive calls is threaded explicitly.  Recursive
graph walks take a fuel argument that is chosen large enough that, on the
traversals the source performs (each recursion step marks a previously
unvisited node), fuel never runs out.
-/

namespace TaskFlow

/-- A task record as stored by Prisma: id, title, status enum string
(`"TODO" | "IN_PROGRESS" | "DONE"`), required due date, optional
completion timestamp, and the list of ids this task depends on. -/
structure Task where
  id : String
  title : String
  status : String
  dueDate : Int
  completedAt : Option Int
  dependencies : List String
  deriving Repr, DecidableEq

/-- A snapshot of the task table. -/
abbrev Store := List Task

/-- `prisma.task.findUnique({ where: { id } })`. -/
def findTask (store : Store) (id : String) : Option Task :=
  store.find? (fun t => t.id == id)

/-- The ids of the tasks in the store. -/
def storeIds (store : Store) : List String :=
  store.map (fun t => t.id)

/-- The dependency records included with a task (`include: { dependencies }`):
the tasks named by its dependency ids.  Prisma's relation table guarantees
the ids resolve; dangling ids are simply absent from the included list. -/
def depTasks (store : Store) (t : Task) : List Task :=
  t.dependencies.filterMap (findTask store)

/-- `prisma.task.update({ where: { id }, data: ... })`: rewrite the matching
record in place. -/
def updateTask (store : Store) (id : String) (f : Task → Task) : Store :=
  store.map (fun t => if t.id == id then f t else t)

/-- `status.toLowerCase()`: lowercase the string character by character
(the statuses involved are plain ASCII). -/
def toLowerString (s : String) : String :=
  ⟨s.data.map Char.toLower⟩

/-- `convertStatusToEnum` from the task-update route: lowercase the incoming
string and map the three known frontend statuses to enum values, anything
else to `"TODO"`. -/
def convertStatusToEnum (status : String) : String :=
  match toLowerString status with
  | "todo" => "TODO"
  | "in-progress" => "IN_PROGRESS"
  | "done" => "DONE"
  | _ => "TODO"

/-- Fuel that dominates the number of distinct ids any traversal of the
store can visit: one per task plus one per dependency edge, plus one. -/
def graphFuel (store : Store) : Nat :=
  (store.length + (store.map (fun t => t.dependencies.length)).sum) + 1

/-- `hasCircularDependency` from the task-update route (`part_000`):
depth-first walk that returns `false` on an already-visited id, `true` on
any id in `targetIds`, and otherwise marks the id visited and recurses into
the task's current dependencies, short-circuiting on `true`.  The mutated
`visited` set is threaded through and returned. -/
def hasCircularDependencyPut (store : Store) :
    Nat → String → List String → List String → Bool × List String
  | 0, _, visited, _ => (false, visited)
  | fuel + 1, taskId, visited, targetIds =>
    if visited.contains taskId then (false, visited)
    else if targetIds.contains taskId then (true, visited)
    else
      let visited := taskId :: visited
      match findTask store taskId with
      | none => (false, visited)
      | some task =>
        task.dependencies.foldl
          (fun acc depId =>
            if acc.1 then acc
            else hasCircularDependencyPut store fuel depId acc.2 targetIds)
          (false, visited)

/-- `checkCircularDependencies` from the task-update route: for each proposed
dependency id, run `hasCircularDependencyPut` from that id with a fresh
`visited` set and target list `taskId :: dependencyIds`, short-circuiting on
`true`. -/
def checkCircularDependenciesPut (store : Store) (taskId : String)
    (dependencyIds : List String) : Bool :=
  dependencyIds.any (fun depId =>
    (hasCircularDependencyPut store (graphFuel store) depId []
      (taskId :: dependencyIds)).1)

/-- The body of a `PUT /api/tasks/[id]` request, restricted to the fields the
graph engine reads.  `none` means the field is absent from the JSON body. -/
structure PutRequest where
  title : Option String
  status : Option String
  dueDate : Option Int
  dependencies : Option (List String)
  deriving Repr, DecidableEq

/-- Outcome of the task-update endpoint. -/
inductive PutResult where
  /-- 404: the task id does not exist. -/
  | notFound
  /-- 400 with the blocking dependencies' `(id, title)` pairs. -/
  | incompleteDependencies (blocking : List (String × String))
  /-- 400 `Circular dependencies detected`. -/
  | circularDependency
  /-- 200 with the updated store. -/
  | ok (newStore : Store)
  deriving Repr, DecidableEq

/-- The `PUT` handler of the task-update route: look the task up, normalise
the status, gate a transition to `DONE` on the statuses of the current
dependencies, cycle-check a non-empty proposed dependency list, then commit,
replacing the dependency set (`set: []` followed by `connect`). -/
def putTask (store : Store) (id : String) (req : PutRequest) : PutResult :=
  match findTask store id with
  | none => .notFound
  | some existingTask =>
    let normalizedStatus := req.status.map convertStatusToEnum
    if normalizedStatus == some "DONE" &&
        !((depTasks store existingTask).filter (fun d => d.status != "DONE")).isEmpty then
      .incompleteDependencies
        (((depTasks store existingTask).filter (fun d => d.status != "DONE")).map
          (fun d => (d.id, d.title)))
    else if (match req.dependencies with
             | some ds => !ds.isEmpty && checkCircularDependenciesPut store id ds
             | none => false) then
      .circularDependency
    else
      .ok (updateTask store id (fun t =>
        { t with
          title := req.title.getD t.title
          status := normalizedStatus.getD t.status
          dueDate := req.dueDate.getD t.dueDate
          dependencies := req.dependencies.getD t.dependencies }))

/-- The shared mutable state of the dependencies route's cycle check: the
`visited` set and the `recursionStack` set. -/
structure DepWalk where
  visited : List String
  recursionStack : List String
  deriving Repr, DecidableEq

/-- `hasCircularDependency` from the dependencies route: classic DFS with a
recursion stack.  An id on the stack means a cycle; a visited id is clean;
otherwise the id joins both sets, the task's current dependencies are
scanned — a dependency equal to `originalTaskId` means the proposed edge
would close a cycle — and on every `false` return the id is popped from the
stack.  A `true` return from a recursive call propagates without popping,
exactly as the early `return true` in the source does. -/
def hasCircularDependencyRoute (store : Store) :
    Nat → String → DepWalk → String → Bool × DepWalk
  | 0, _, s, _ => (false, s)
  | fuel + 1, taskId, s, originalTaskId =>
    if s.recursionStack.contains taskId then (true, s)
    else if s.visited.contains taskId then (false, s)
    else
      let s : DepWalk := ⟨taskId :: s.visited, taskId :: s.recursionStack⟩
      match findTask store taskId with
      | none => (false, ⟨s.visited, s.recursionStack.erase taskId⟩)
      | some task =>
        let r := task.dependencies.foldl
          (fun acc depId =>
            if acc.1 then acc
            else if depId == originalTaskId then
              (true, ⟨acc.2.visited, acc.2.recursionStack.erase taskId⟩)
            else hasCircularDependencyRoute store fuel depId acc.2 originalTaskId)
          (false, s)
        if r.1 then r
        else (false, ⟨r.2.visited, r.2.recursionStack.erase taskId⟩)

/-- `checkCircularDependencies` from the dependencies route: one shared
`visited` / `recursionStack` pair across the loop over the proposed
dependency ids, short-circuiting on the first `true`. -/
def checkCircularDependenciesRoute (store : Store) (taskId : String)
    (newDependencies : List String) : Bool :=
  (newDependencies.foldl
    (fun acc depId =>
      if acc.1 then acc
      else hasCircularDependencyRoute store (graphFuel store) depId acc.2 taskId)
    (false, ⟨[], []⟩)).1

/-- Prisma `connect` on a many-to-many relation: add each proposed id that is
not already connected; existing edges stay. -/
def connectDeps (old new_ : List String) : List String :=
  new_.foldl (fun acc d => if acc.contains d then acc else acc ++ [d]) old

/-- Outcome of `POST /api/tasks/[id]/dependencies`. -/
inductive DepsPostResult where
  /-- 404: the task id does not exist. -/
  | notFound
  /-- 400 `Circular dependencies detected`. -/
  | circularDependency
  /-- 200 with the updated store. -/
  | ok (newStore : Store)
  deriving Repr, DecidableEq

/-- The `POST` handler of the dependencies route: look the task up, run the
cycle check, then `connect` the proposed ids to the existing dependency set
(no `set: []` — the proposal is merged, not a replacement). -/
def postDependencies (store : Store) (taskId : String)
    (dependencies : List String) : DepsPostResult :=
  match findTask store taskId with
  | none => .notFound
  | some _ =>
    if checkCircularDependenciesRoute store taskId dependencies then
      .circularDependency
    else
      .ok (updateTask store taskId (fun t =>
        { t with dependencies := connectDeps t.dependencies dependencies }))

/-- The `POST /api/tasks` handler (task creation), restricted to the graph
engine's fields: reject an empty title (`!title`), otherwise append a fresh
record with status `"TODO"` and the given initial dependency ids — no cycle
check is performed on creation. -/
def createTask (store : Store) (id title : String) (dueDate : Int)
    (dependencies : List String) : Option Store :=
  if title == "" then none
  else some (store ++ [{ id := id, title := title, status := "TODO",
                         dueDate := dueDate, completedAt := none,
                         dependencies := dependencies }])

/-- The `DELETE /api/tasks/[id]` handler: remove the record; the relation
table drops every edge that references it on either side. -/
def deleteTask (store : Store) (id : String) : Option Store :=
  match findTask store id with
  | none => none
  | some _ =>
    some ((store.filter (fun t => t.id != id)).map
      (fun t => { t with dependencies := t.dependencies.filter (fun d => d != id) }))

/-- `target` is reachable from `src` along one or more dependency edges. -/
def reachableFrom (store : Store) : Nat → String → String → Bool
  | 0, _, _ => false
  | fuel + 1, src, target =>
    match findTask store src with
    | none => false
    | some t =>
      t.dependencies.any (fun d => d == target || reachableFrom store fuel d target)

/-- The dependency graph has a directed cycle: some task reaches itself. -/
def hasCycle (store : Store) : Bool :=
  store.any (fun t => reachableFrom store (graphFuel store) t.id t.id)

/-- Milliseconds per day, the divisor in the duration computation. -/
def msPerDay : Int := 1000 * 60 * 60 * 24

/-- `Math.ceil(a / b)` on integers, for a positive divisor `b`. -/
def ceilDiv (a b : Int) : Int := -((-a).fdiv b)

/-- Assignment to a JavaScript object / `Map` key: replace the value of an
existing key in place, otherwise append the new entry. -/
def setKey {α : Type} (m : List (String × α)) (k : String) (v : α) :
    List (String × α) :=
  if m.any (fun p => p.1 == k) then
    m.map (fun p => if p.1 == k then (k, v) else p)
  else m ++ [(k, v)]

/-- Key lookup in a JavaScript object / `Map` modelled as an association
list with unique keys. -/
def getKey {α : Type} (m : List (String × α)) (k : String) : Option α :=
  (m.find? (fun p => p.1 == k)).map (fun p => p.2)

/-- `calculateEarliestStartDate` from the analysis route: a task with no
dependencies starts at `now` (`new Date()`); otherwise take, over the
task's immediate dependencies that resolve in the task map, the latest of
their completion reference dates, starting from `new Date(0)`.  A `DONE`
dependency's reference is its `completedAt` if set, else its due date; an
incomplete dependency's reference is its due date.  The
`earliestStartDates` record is passed by the caller but never read. -/
def calculateEarliestStartDate (now : Int) (taskMap : Store)
    (_earliestStartDates : List (String × Int)) (task : Task) : Int :=
  if task.dependencies.isEmpty then now
  else
    task.dependencies.foldl
      (fun latestCompletionDate depId =>
        match findTask taskMap depId with
        | none => latestCompletionDate
        | some dependency =>
          let dependencyCompletionDate := dependency.dueDate
          if dependency.status == "DONE" then
            let completionDate := dependency.completedAt.getD dependencyCompletionDate
            if completionDate > latestCompletionDate then completionDate
            else latestCompletionDate
          else
            if dependencyCompletionDate > latestCompletionDate then
              dependencyCompletionDate
            else latestCompletionDate)
      0

/-- `calculateEarliestStartDates`: for each task, in list order, assign the
computed earliest start to the record under the task's *title*. -/
def calculateEarliestStartDates (now : Int) (tasks : Store) :
    List (String × Int) :=
  tasks.foldl
    (fun earliestStartDates task =>
      setKey earliestStartDates task.title
        (calculateEarliestStartDate now tasks earliestStartDates task))
    []

/-- The shared mutable state of the critical-path search: the `visited` set
and the `pathLengths` map. -/
structure DfsState where
  visited : List String
  pathLengths : List (String × Nat)
  deriving Repr, DecidableEq

/-- `dfs` from the analysis route: an already-visited id contributes
`[taskId]` when it has a recorded path length and `[]` otherwise; an id
that resolves to no task, or to a task without dependencies, records
length 1 and contributes `[taskId]`; otherwise the longest of the
dependency paths (strictly-greater comparison, so the first maximum wins)
is extended with the current id and its length is recorded. -/
def dfs (store : Store) : Nat → String → DfsState → List String × DfsState
  | 0, _, s => ([], s)
  | fuel + 1, taskId, s =>
    if s.visited.contains taskId then
      (if (getKey s.pathLengths taskId).isSome then [taskId] else [], s)
    else
      let s : DfsState := ⟨taskId :: s.visited, s.pathLengths⟩
      match findTask store taskId with
      | none => ([taskId], ⟨s.visited, setKey s.pathLengths taskId 1⟩)
      | some task =>
        if task.dependencies.isEmpty then
          ([taskId], ⟨s.visited, setKey s.pathLengths taskId 1⟩)
        else
          let r := task.dependencies.foldl
            (fun (acc : List String × DfsState) depId =>
              let d := dfs store fuel depId acc.2
              if d.1.length > acc.1.length then d else (acc.1, d.2))
            ([], s)
          let currentPath := r.1 ++ [taskId]
          (currentPath, ⟨r.2.visited, setKey r.2.pathLengths taskId currentPath.length⟩)

/-- `findCriticalPath`: run `dfs` from every not-yet-visited task in list
order, keep the strictly longest path found, and map its ids to titles (an
id that resolves to no task stays an id). -/
def findCriticalPath (store : Store) : List String :=
  let r := store.foldl
    (fun (acc : List String × DfsState) task =>
      if acc.2.visited.contains task.id then acc
      else
        let d := dfs store (graphFuel store) task.id acc.2
        if d.1.length > acc.1.length then d else (acc.1, d.2))
    ([], ⟨[], []⟩)
  r.1.map (fun taskId =>
    match findTask store taskId with
    | some t => t.title
    | none => taskId)

/-- The `new Map(tasks.map(task => [task.title, task]))` of the duration
computation: a later task with the same title overwrites an earlier one. -/
def buildTitleMap (tasks : Store) : List (String × Task) :=
  tasks.foldl (fun m t => setKey m t.title t) []

/-- `calculateTotalDuration`: an empty critical path yields 0; otherwise sum,
over the path entries that resolve in the title map, of
`max(1, ceil((dueDate - now) / msPerDay))`. -/
def calculateTotalDuration (now : Int) (tasks : Store)
    (criticalPath : List String) : Int :=
  if criticalPath.isEmpty then 0
  else
    let taskMap := buildTitleMap tasks
    criticalPath.foldl
      (fun totalDays title =>
        match getKey taskMap title with
        | some task => totalDays + max 1 (ceilDiv (task.dueDate - now) msPerDay)
        | none => totalDays)
      0

/-- Consecutive entries joined by dependency edges: each entry after the
first depends directly on its predecessor, so the list is a dependency
chain ordered from most upstream to most downstream. -/
def isChain (store : Store) : List String → Bool
  | [] => true
  | [_] => true
  | a :: b :: rest =>
    (match findTask store b with
     | some t => t.dependencies.contains a
     | none => false) && isChain store (b :: rest)

/-! Concrete fixtures used by the counterexample and bug-evaluation
theorems. -/

/-- A task with no dependencies. -/
def taskA : Task := ⟨"A", "Task A", "TODO", 0, none, []⟩

/-- A second independent task. -/
def taskB : Task := ⟨"B", "Task B", "TODO", 0, none, []⟩

/-- A third independent task. -/
def taskC : Task := ⟨"C", "Task C", "TODO", 0, none, []⟩

/-- `taskA` after an accepted self-dependency update. -/
def taskASelf : Task := ⟨"A", "Task A", "TODO", 0, none, ["A"]⟩

/-- `taskA` already depending on `taskB`. -/
def taskAB : Task := ⟨"A", "Task A", "TODO", 0, none, ["B"]⟩

/-- Chain fixture: no dependencies, due in 1 day. -/
def chainA : Task := ⟨"A", "A", "TODO", 1 * msPerDay, none, []⟩

/-- Chain fixture: depends on `chainA`, due in 2 days. -/
def chainB : Task := ⟨"B", "B", "TODO", 2 * msPerDay, none, ["A"]⟩

/-- Chain fixture: depends on `chainB`, due in 3 days. -/
def chainC : Task := ⟨"C", "C", "TODO", 3 * msPerDay, none, ["B"]⟩

/-- Chain fixture: depends on `chainC`, due in 4 days. -/
def chainD : Task := ⟨"D", "D", "TODO", 4 * msPerDay, none, ["C"]⟩

/-- Earliest-start fixture: no dependencies, due in 100 days. -/
def estA : Task := ⟨"A", "A", "TODO", 100 * msPerDay, none, []⟩

/-- Earliest-start fixture: depends on `estA`, due in 2 days. -/
def estB : Task := ⟨"B", "B", "TODO", 2 * msPerDay, none, ["A"]⟩

/-- Earliest-start fixture: depends on `estB`, due in 5 days. -/
def estC : Task := ⟨"C", "C", "TODO", 5 * msPerDay, none, ["B"]⟩

/-- The claimed `wouldCreateCycle` behaviour of the task-update route fails
before it starts: every proposed dependency id is itself a member of the
`targetIds` list `[taskId, ...dependencyIds]`, so the very first probe of
`hasCircularDependency` answers `true`. -/
theorem checkCircularDependenciesPut_nonempty (store : Store) (taskId : String)
    (d : String) (rest : List String) :
    checkCircularDependenciesPut store taskId (d :: rest) = true := by
  obtain ⟨m, hm⟩ : ∃ m, graphFuel store = m + 1 := ⟨_, rfl⟩
  simp only [checkCircularDependenciesPut, List.any_cons, hm,
    hasCircularDependencyPut]
  simp [List.contains_cons]

/-- C1.  The task-update endpoint does not implement "reject iff the
proposal closes a cycle": whenever the task exists and the proposed
dependency id set is non-empty — regardless of whether the resulting graph
would be acyclic — the request is rejected with the circular-dependency
reason.  (The code places the proposed ids themselves in the DFS target
list, so the check is constantly true.) -/
theorem putTask_rejects_every_nonempty_proposal (store : Store) (id : String)
    (t : Task) (ds : List String) (ht : findTask store id = some t)
    (hds : ds ≠ []) :
    putTask store id ⟨none, none, none, some ds⟩ = .circularDependency := by
  cases ds with
  | nil => exact absurd rfl hds
  | cons d rest =>
    simp [putTask, ht, checkCircularDependenciesPut_nonempty]

/-- Witness for C1: with two unrelated tasks in the store, proposing that
`A` depend on `B` is acyclic, yet the endpoint rejects it. -/
theorem putTask_rejects_every_nonempty_proposal_witness :
    putTask [taskA, taskB] "A" ⟨none, none, none, some ["B"]⟩
        = .circularDependency
      ∧ hasCycle (updateTask [taskA, taskB] "A"
          (fun t => { t with dependencies := ["B"] })) = false :=
  ⟨putTask_rejects_every_nonempty_proposal [taskA, taskB] "A" taskA ["B"]
      (by decide) (by decide),
   by decide⟩

/-- C2.  The acyclicity invariant fails: creating task `A` with no
dependencies and then sending the accepted update `POST
/api/tasks/A/dependencies {dependencies: ["A"]}` leaves a graph in which
`A` reaches itself, i.e. a cycle. -/
theorem accepted_operations_can_create_cycle :
    createTask [] "A" "Task A" 0 [] = some [taskA]
      ∧ postDependencies [taskA] "A" ["A"] = .ok [taskASelf]
      ∧ hasCycle [taskASelf] = true := by
  decide

/-- C3.  Self-dependency is not always rejected: the dependencies
endpoint's cycle check answers `false` for the proposal that `A` depend on
`A` (it only searches the task's *current* edges for the original id), so
the self-loop is committed. -/
theorem self_dependency_accepted_by_dependencies_route :
    checkCircularDependenciesRoute [taskA] "A" ["A"] = false
      ∧ postDependencies [taskA] "A" ["A"] = .ok [taskASelf]
      ∧ taskASelf.dependencies.contains "A" = true := by
  decide

/-- The dependencies endpoint merges instead of replacing: with `A`
already depending on `B`, the accepted proposal `["C"]` leaves `A`
depending on both `B` and `C`. -/
theorem postDependencies_merges_counterexample :
    postDependencies [taskAB, taskB, taskC] "A" ["C"]
        = .ok [⟨"A", "Task A", "TODO", 0, none, ["B", "C"]⟩, taskB, taskC]
      ∧ (["B", "C"] : List String) ≠ ["C"] := by
  decide

/-- C6.  The earliest-start computation is one hop deep, not propagated:
in the chain `C → B → A` with `A` due at day 100 and `B` due at day 2,
`C`'s computed earliest start is day 2, even though its ancestor `A` — to
which `C` is transitively connected — has completion reference day 100. -/
theorem earliest_start_not_propagated :
    calculateEarliestStartDate 0 [estA, estB, estC] [] estC = 2 * msPerDay
      ∧ getKey (calculateEarliestStartDates 0 [estA, estB, estC]) "C"
          = some (2 * msPerDay)
      ∧ reachableFrom [estA, estB, estC] (graphFuel [estA, estB, estC]) "C" "A"
          = true
      ∧ estA.status ≠ "DONE" ∧ estA.dueDate = 100 * msPerDay
      ∧ (2 * msPerDay : Int) < 100 * msPerDay := by
  decide

/-- C7.  The returned critical path is not always a longest chain: for the
chain `D → C → B → A` presented in list order `[B, D, C, A]`, the search
returns the three-task path `[B, C, D]`, although `[A, B, C, D]` is a
four-task dependency chain of the same graph (the memoisation contributes
a single node, not the recorded chain, when a visited id is
re-encountered). -/
theorem critical_path_not_longest :
    findCriticalPath [chainB, chainD, chainC, chainA] = ["B", "C", "D"]
      ∧ (["B", "C", "D"] : List String).length = 3
      ∧ isChain [chainB, chainD, chainC, chainA] ["A", "B", "C", "D"] = true
      ∧ (["A", "B", "C", "D"] : List String).length = 4
      ∧ (∀ x ∈ (["A", "B", "C", "D"] : List String),
          x ∈ storeIds [chainB, chainD, chainC, chainA]) := by
  decide

/-- Status strings are lowercased before matching, so a string outside
`todo`/`in-progress`/`done` is not always normalised to `todo`:
`"DONE"` normalises to the done status. -/
theorem convertStatusToEnum_upper_done_counterexample :
    convertStatusToEnum "DONE" = "DONE"
      ∧ ("DONE" : String) ∉ (["todo", "in-progress", "done"] : List String)
      ∧ convertStatusToEnum "DONE" ≠ "TODO" := by
  decide

/-- Updating the found task rewrites exactly that record: looking the id up
again returns the transformed task, provided the transformation preserves
ids. -/
theorem findTask_updateTask (store : Store) (id : String) (f : Task → Task)
    (t : Task) (ht : findTask store id = some t)
    (hf : ∀ u, (f u).id = u.id) :
    findTask (updateTask store id f) id = some (f t) := by
  induction store with
  | nil => simp [findTask] at ht
  | cons a l ih =>
    cases ha : (a.id == id) with
    | true =>
      have hid : a.id = id := by simpa using ha
      have ht' : t = a := by
        have := ht
        simp only [findTask, List.find?, ha] at this
        exact (Option.some.inj this).symm
      subst ht'
      simp [findTask, updateTask, List.find?, ha, hf t, hid]
    | false =>
      have ht' : findTask l id = some t := by
        have := ht
        simp only [findTask, List.find?, ha] at this
        exact this
      have := ih ht'
      simpa [findTask, updateTask, List.find?, ha] using this

/-- Membership in a Prisma `connect` result: an id is connected afterwards
iff it was connected before or appears in the proposal. -/
theorem mem_connectDeps (old new_ : List String) (x : String) :
    x ∈ connectDeps old new_ ↔ x ∈ old ∨ x ∈ new_ := by
  induction new_ generalizing old with
  | nil => simp [connectDeps]
  | cons d rest ih =>
    have hstep : connectDeps old (d :: rest)
        = connectDeps (if old.contains d then old else old ++ [d]) rest := rfl
    rw [hstep, ih]
    cases hc : old.contains d with
    | true =>
      have hd : d ∈ old := by simpa using hc
      simp only [hc, if_true, List.mem_cons]
      constructor
      · rintro (h | h)
        · exact Or.inl h
        · exact Or.inr (Or.inr h)
      · rintro (h | rfl | h)
        · exact Or.inl h
        · exact Or.inl hd
        · exact Or.inr h
    | false =>
      simp only [hc, Bool.false_eq_true, if_false, List.mem_append,
        List.mem_singleton, List.mem_cons]
      tauto

/-- C4 (amended).  An accepted dependency-set update through the task-update
endpoint stores exactly the proposed set (full replacement); an accepted
update through the dependencies endpoint stores the union of the previous
set and the proposal (the proposal is merged via `connect`, not a
replacement). -/
theorem dependency_update_replacement_vs_merge :
    (∀ (store : Store) (id : String) (req : PutRequest) (ds : List String)
        (st : Store) (u : Task),
      req.dependencies = some ds →
      putTask store id req = .ok st →
      findTask st id = some u →
      u.dependencies = ds)
    ∧ (∀ (store : Store) (id : String) (t : Task) (ds : List String)
        (st : Store) (u : Task) (x : String),
      findTask store id = some t →
      postDependencies store id ds = .ok st →
      findTask st id = some u →
      (x ∈ u.dependencies ↔ x ∈ t.dependencies ∨ x ∈ ds)) := by
  constructor
  · intro store id req ds st u hds hput hfind
    match hfd : findTask store id with
    | none => simp [putTask, hfd] at hput
    | some t =>
      simp only [putTask, hfd] at hput
      split at hput
      · exact absurd hput (by simp)
      · split at hput
        · exact absurd hput (by simp)
        · have hst : st = updateTask store id (fun v =>
              { v with
                title := req.title.getD v.title
                status := (req.status.map convertStatusToEnum).getD v.status
                dueDate := req.dueDate.getD v.dueDate
                dependencies := req.dependencies.getD v.dependencies }) :=
            (PutResult.ok.inj hput).symm
          subst hst
          have := findTask_updateTask store id
            (fun v =>
              { v with
                title := req.title.getD v.title
                status := (req.status.map convertStatusToEnum).getD v.status
                dueDate := req.dueDate.getD v.dueDate
                dependencies := req.dependencies.getD v.dependencies })
            t hfd (fun v => rfl)
          rw [this] at hfind
          have hu := Option.some.inj hfind
          rw [← hu, hds]
          rfl
  · intro store id t ds st u x ht hpost hfind
    simp only [postDependencies, ht] at hpost
    split at hpost
    · exact absurd hpost (by simp)
    · have hst : st = updateTask store id (fun v =>
          { v with dependencies := connectDeps v.dependencies ds }) :=
        (DepsPostResult.ok.inj hpost).symm
      subst hst
      have := findTask_updateTask store id
        (fun v => { v with dependencies := connectDeps v.dependencies ds })
        t ht (fun v => rfl)
      rw [this] at hfind
      have hu := Option.some.inj hfind
      rw [← hu]
      exact mem_connectDeps t.dependencies ds x

/-- Witness for C4's amended statement: the task-update endpoint commits the
proposed empty set verbatim, and the dependencies endpoint turns the old
set `["B"]` plus proposal `["C"]` into membership-union semantics. -/
theorem dependency_update_replacement_vs_merge_witness :
    (⟨"A", "Task A", "TODO", 0, none, []⟩ : Task).dependencies = ([] : List String)
      ∧ ("B" ∈ (⟨"A", "Task A", "TODO", 0, none, ["B", "C"]⟩ : Task).dependencies
          ↔ "B" ∈ taskAB.dependencies ∨ "B" ∈ (["C"] : List String)) :=
  ⟨dependency_update_replacement_vs_merge.1 [taskAB, taskB, taskC] "A"
      ⟨none, none, none, some []⟩ [] [⟨"A", "Task A", "TODO", 0, none, []⟩, taskB, taskC]
      ⟨"A", "Task A", "TODO", 0, none, []⟩ rfl (by decide) (by decide),
   dependency_update_replacement_vs_merge.2 [taskAB, taskB, taskC] "A" taskAB
      ["C"] [⟨"A", "Task A", "TODO", 0, none, ["B", "C"]⟩, taskB, taskC]
      ⟨"A", "Task A", "TODO", 0, none, ["B", "C"]⟩ "B" (by decide) (by decide)
      (by decide)⟩

/-- C5.  For a task-update request that does not touch the dependency set,
the request is rejected exactly when the status normalises to `DONE` and
some current dependency is not `DONE`; the rejection carries precisely the
`(id, title)` pairs of all non-`DONE` dependencies; and a request whose
status does not normalise to `DONE` always commits — the gate never fires
for another status. -/
theorem completion_gate_exact (store : Store) (id : String) (t : Task)
    (req : PutRequest) (ht : findTask store id = some t)
    (hds : req.dependencies = none ∨ req.dependencies = some []) :
    (putTask store id req
        = .incompleteDependencies
            (((depTasks store t).filter (fun d => d.status != "DONE")).map
              (fun d => (d.id, d.title)))
      ↔ req.status.map convertStatusToEnum = some "DONE"
          ∧ (depTasks store t).filter (fun d => d.status != "DONE") ≠ [])
    ∧ (∀ bs, putTask store id req = .incompleteDependencies bs →
        bs = ((depTasks store t).filter (fun d => d.status != "DONE")).map
              (fun d => (d.id, d.title)))
    ∧ (req.status.map convertStatusToEnum ≠ some "DONE" →
        ∃ st, putTask store id req = .ok st) := by
  have hcirc : (match req.dependencies with
      | some ds => !ds.isEmpty && checkCircularDependenciesPut store id ds
      | none => false) = false := by
    rcases hds with h | h
    · rw [h]
    · rw [h]
      rfl
  by_cases hdone : req.status.map convertStatusToEnum = some "DONE"
  · by_cases hblock : (depTasks store t).filter (fun d => d.status != "DONE") = []
    · simp [putTask, ht, hdone, hblock, hcirc]
    · have hne : ((depTasks store t).filter (fun d => d.status != "DONE")).isEmpty
          = false := by
        cases h : (depTasks store t).filter (fun d => d.status != "DONE") with
        | nil => exact absurd h hblock
        | cons a l => rfl
      refine ⟨?_, ?_, ?_⟩
      · simp [putTask, ht, hdone, hne, hblock]
      · intro bs hbs
        simp [putTask, ht, hdone, hne] at hbs
        exact hbs.symm
      · intro h
        exact absurd hdone h
  · have hfalse : (req.status.map convertStatusToEnum == some "DONE") = false := by
      simpa using hdone
    refine ⟨?_, ?_, ?_⟩
    · simp [putTask, ht, hfalse, hcirc, hdone]
    · intro bs hbs
      simp [putTask, ht, hfalse, hcirc] at hbs
    · intro _
      refine ⟨updateTask store id (fun v =>
        { v with
          title := req.title.getD v.title
          status := (req.status.map convertStatusToEnum).getD v.status
          dueDate := req.dueDate.getD v.dueDate
          dependencies := req.dependencies.getD v.dependencies }), ?_⟩
      simp [putTask, ht, hfalse, hcirc]

/-- Witness for C5: with `A` depending on the incomplete `B`, the request
`{status: "done"}` is rejected carrying exactly `[("B", "Task B")]`. -/
theorem completion_gate_exact_witness :
    putTask [taskAB, taskB] "A" ⟨none, some "done", none, none⟩
      = .incompleteDependencies [("B", "Task B")] := by
  have h := (completion_gate_exact [taskAB, taskB] "A" taskAB
    ⟨none, some "done", none, none⟩ (by decide) (Or.inl rfl)).1
  have hconc := h.mpr ⟨by decide, by decide⟩
  simpa using hconc

/-- C10 (amended).  A status string whose *lowercased* form is not `todo`,
`in-progress` or `done` is silently normalised to the todo status; every
status string normalises to one of the three enum values, so no status
value is ever rejected as invalid input; and the completion gate can fire
only when the normalised status is exactly `DONE`. -/
theorem status_normalization_and_gate :
    (∀ s : String,
        toLowerString s ∉ (["todo", "in-progress", "done"] : List String) →
        convertStatusToEnum s = "TODO")
    ∧ (∀ s : String,
        convertStatusToEnum s ∈ (["TODO", "IN_PROGRESS", "DONE"] : List String))
    ∧ (∀ (store : Store) (id : String) (req : PutRequest)
        (bs : List (String × String)),
        req.status.map convertStatusToEnum ≠ some "DONE" →
        putTask store id req ≠ .incompleteDependencies bs) := by
  refine ⟨?_, ?_, ?_⟩
  · intro s hs
    unfold convertStatusToEnum
    split <;> simp_all
  · intro s
    unfold convertStatusToEnum
    split <;> simp
  · intro store id req bs hne hput
    match hfd : findTask store id with
    | none => simp [putTask, hfd] at hput
    | some t =>
      have hfalse : (req.status.map convertStatusToEnum == some "DONE") = false := by
        simpa using hne
      simp only [putTask, hfd, hfalse, Bool.false_and, Bool.false_eq_true,
        if_false] at hput
      split at hput <;> simp at hput

/-- Witness for C10's amended statement: `"bogus"` normalises to `TODO`,
and a request with that status against an existing task is never an
incomplete-dependencies rejection. -/
theorem status_normalization_and_gate_witness :
    convertStatusToEnum "bogus" = "TODO"
      ∧ putTask [taskA] "A" ⟨none, some "bogus", none, none⟩
          ≠ .incompleteDependencies [] :=
  ⟨status_normalization_and_gate.1 "bogus" (by decide),
   status_normalization_and_gate.2.2 [taskA] "A" ⟨none, some "bogus", none, none⟩
     [] (by decide)⟩

/-- The number of entries a record holds under a key. -/
def countEntries {α : Type} (m : List (String × α)) (k : String) : Nat :=
  (m.filter (fun p => p.1 == k)).length

/-- Lookup in a non-empty record inspects the head first. -/
theorem getKey_cons {α : Type} (p : String × α) (rest : List (String × α))
    (k : String) :
    getKey (p :: rest) k = if p.1 == k then some p.2 else getKey rest k := by
  cases hp : p.1 == k with
  | true => simp [getKey, List.find?, hp]
  | false => simp [getKey, List.find?, hp]

/-- Assignment walks past a head whose key differs. -/
theorem setKey_cons_ne {α : Type} (p : String × α) (rest : List (String × α))
    (k : String) (v : α) (hp : (p.1 == k) = false) :
    setKey (p :: rest) k v = p :: setKey rest k v := by
  have hpP : ¬p.1 = k := by simpa using hp
  unfold setKey
  cases ha : rest.any (fun q => q.1 == k) with
  | true => simp [List.any_cons, hp, ha, hpP]
  | false => simp [List.any_cons, hp, ha, hpP]

/-- Assignment overwrites a head whose key matches and rewrites any later
entry with the same key. -/
theorem setKey_cons_eq {α : Type} (p : String × α) (rest : List (String × α))
    (k : String) (v : α) (hp : (p.1 == k) = true) :
    setKey (p :: rest) k v
      = (k, v) :: rest.map (fun q => if q.1 == k then (k, v) else q) := by
  have hpP : p.1 = k := by simpa using hp
  unfold setKey
  simp [List.any_cons, hp, hpP]

/-- Rewriting the entries under one key does not disturb lookups of a
different key. -/
theorem getKey_map_replace_ne {α : Type} (k k' : String) (v : α)
    (hne : k' ≠ k) (rest : List (String × α)) :
    getKey (rest.map (fun q => if q.1 == k then (k, v) else q)) k'
      = getKey rest k' := by
  induction rest with
  | nil => rfl
  | cons q l ih =>
    rw [List.map_cons, getKey_cons, getKey_cons]
    cases hq : q.1 == k with
    | true =>
      have hq1 : q.1 = k := by simpa using hq
      have h1 : ((k, v).1 == k') = false := by
        simpa using fun h => hne h.symm
      have h2 : (q.1 == k') = false := by
        simpa [hq1] using fun h => hne h.symm
      simp only [hq, if_true, h1, h2, Bool.false_eq_true, if_false]
      exact ih
    | false =>
      simp only [hq, Bool.false_eq_true, if_false]
      cases hq' : q.1 == k' with
      | true => simp [hq']
      | false => simp only [hq', Bool.false_eq_true, if_false]; exact ih

/-- Reading back the key just assigned yields the assigned value. -/
theorem getKey_setKey_self {α : Type} (m : List (String × α)) (k : String)
    (v : α) : getKey (setKey m k v) k = some v := by
  induction m with
  | nil => simp [setKey, getKey, List.find?]
  | cons p rest ih =>
    cases hp : p.1 == k with
    | true => rw [setKey_cons_eq p rest k v hp, getKey_cons]; simp
    | false =>
      rw [setKey_cons_ne p rest k v hp, getKey_cons, if_neg (by simp [hp])]
      exact ih

/-- Assignment under one key leaves other keys unchanged. -/
theorem getKey_setKey_of_ne {α : Type} (m : List (String × α)) (k k' : String)
    (v : α) (hne : k' ≠ k) : getKey (setKey m k v) k' = getKey m k' := by
  induction m with
  | nil =>
    have hk : (k == k') = false := by simpa using fun h => hne h.symm
    simp [setKey, getKey, List.find?, hk]
  | cons p rest ih =>
    cases hp : p.1 == k with
    | true =>
      rw [setKey_cons_eq p rest k v hp, getKey_cons, getKey_cons]
      have hp1 : p.1 = k := by simpa using hp
      have h1 : ((k, v).1 == k') = false := by
        simpa using fun h => hne h.symm
      have h2 : (p.1 == k') = false := by
        simpa [hp1] using fun h => hne h.symm
      simp only [h1, h2, Bool.false_eq_true, if_false]
      exact getKey_map_replace_ne k k' v hne rest
    | false =>
      rw [setKey_cons_ne p rest k v hp, getKey_cons, getKey_cons]
      cases hq : p.1 == k' with
      | true => simp [hq]
      | false => simp only [hq, Bool.false_eq_true, if_false]; exact ih

/-- Folding JavaScript-style assignments keyed by title: the final value
under a title is the one computed from the *last* list element bearing
that title, independently of the accumulator the fold started from for
titles that occur. -/
theorem getKey_foldl_setKey {α : Type} (f : Task → α) (T : String) :
    ∀ (l : List Task) (m : List (String × α)),
      getKey (l.foldl (fun m t => setKey m t.title (f t)) m) T
        = match (l.filter (fun t => t.title == T)).getLast? with
          | some t => some (f t)
          | none => getKey m T := by
  intro l
  induction l with
  | nil => intro m; simp
  | cons a l ih =>
    intro m
    have hstep : (a :: l).foldl (fun m t => setKey m t.title (f t)) m
        = l.foldl (fun m t => setKey m t.title (f t)) (setKey m a.title (f a)) :=
      rfl
    rw [hstep, ih]
    by_cases pa : a.title = T
    · have pa' : (a.title == T) = true := by simpa using pa
      rw [List.filter_cons, if_pos pa']
      cases hl : l.filter (fun t => t.title == T) with
      | nil =>
        simp only [hl, List.getLast?_singleton, List.getLast?_nil]
        rw [pa]
        exact getKey_setKey_self m T (f a)
      | cons b bs =>
        simp only [hl, List.getLast?_cons, Option.getD_some]
    · have pa' : (a.title == T) = false := by simpa using pa
      rw [List.filter_cons, if_neg (by simp [pa'])]
      cases hl : l.filter (fun t => t.title == T) with
      | nil =>
        simp only [hl, List.getLast?_nil]
        exact getKey_setKey_of_ne m a.title T (f a) (fun h => pa h.symm)
      | cons b bs => simp only [hl, List.getLast?_cons, Option.getD_some]

/-- Assignment never duplicates keys: if the record's keys are distinct they
stay distinct. -/
theorem keys_nodup_setKey {α : Type} (m : List (String × α)) (k : String)
    (v : α) (h : (m.map Prod.fst).Nodup) :
    ((setKey m k v).map Prod.fst).Nodup := by
  unfold setKey
  cases ha : m.any (fun p => p.1 == k) with
  | true =>
    simp only [if_true]
    have : (m.map (fun p => if p.1 == k then (k, v) else p)).map Prod.fst
        = m.map Prod.fst := by
      rw [List.map_map]
      apply List.map_congr_left
      intro p _
      cases hp : p.1 == k with
      | true =>
        have hpP : p.1 = k := by simpa using hp
        simp [hp, hpP]
      | false =>
        have hpP : ¬p.1 = k := by simpa using hp
        simp [hp, hpP]
    rw [this]
    exact h
  | false =>
    simp only [Bool.false_eq_true, if_false, List.map_append, List.map_cons,
      List.map_nil]
    have hk : k ∉ m.map Prod.fst := by
      intro hmem
      rcases List.mem_map.mp hmem with ⟨p, hp, hpk⟩
      have hb : (p.1 == k) = true := by simpa using hpk
      have : m.any (fun p => p.1 == k) = true :=
        List.any_eq_true.mpr ⟨p, hp, hb⟩
      rw [this] at ha
      exact Bool.true_eq_false.mp ha
    refine List.Nodup.append h (List.nodup_singleton k) ?_
    intro a ha1 ha2
    rw [List.mem_singleton] at ha2
    subst ha2
    exact hk ha1

/-- A record with distinct keys holds at most one entry per key. -/
theorem countEntries_le_one_of_nodup {α : Type} (m : List (String × α))
    (k : String) (h : (m.map Prod.fst).Nodup) : countEntries m k ≤ 1 := by
  induction m with
  | nil => simp [countEntries]
  | cons p rest ih =>
    simp only [List.map_cons, List.nodup_cons] at h
    by_cases hp : p.1 = k
    · have hrest : rest.filter (fun q => q.1 == k) = [] := by
        rw [List.filter_eq_nil_iff]
        intro q hq hqk
        have : q.1 = k := by simpa using hqk
        exact h.1 (List.mem_map.mpr ⟨q, hq, this.trans hp.symm⟩)
      simp [countEntries, List.filter_cons, hp, hrest]
    · have hp' : (p.1 == k) = false := by simpa using hp
      have := ih h.2
      simpa [countEntries, List.filter_cons, hp'] using this

/-- The keys of the earliest-start record are distinct. -/
theorem calculateEarliestStartDates_keys_nodup (now : Int) (tasks : Store) :
    ((calculateEarliestStartDates now tasks).map Prod.fst).Nodup := by
  have main : ∀ (l : List Task) (m : List (String × Int)),
      (m.map Prod.fst).Nodup →
      ((l.foldl (fun m t =>
          setKey m t.title (calculateEarliestStartDate now tasks m t)) m).map
        Prod.fst).Nodup := by
    intro l
    induction l with
    | nil => intro m hm; simpa using hm
    | cons a l ih =>
      intro m hm
      exact ih _ (keys_nodup_setKey m a.title _ hm)
  exact main tasks [] (by simp)

/-- C9.  The analysis is keyed by title: the earliest-start record holds at
most one entry per title, that entry's value is the one computed for the
last input task bearing the title, and the duration computation's title
map resolves a title to the last input task bearing it. -/
theorem analysis_keyed_by_title (now : Int) (tasks : Store) (T : String) :
    countEntries (calculateEarliestStartDates now tasks) T ≤ 1
    ∧ getKey (calculateEarliestStartDates now tasks) T
        = ((tasks.filter (fun t => t.title == T)).getLast?).map
            (fun t => calculateEarliestStartDate now tasks [] t)
    ∧ getKey (buildTitleMap tasks) T
        = (tasks.filter (fun t => t.title == T)).getLast? := by
  refine ⟨?_, ?_, ?_⟩
  · exact countEntries_le_one_of_nodup _ T
      (calculateEarliestStartDates_keys_nodup now tasks)
  · have hrw : calculateEarliestStartDates now tasks
        = tasks.foldl (fun m t =>
            setKey m t.title (calculateEarliestStartDate now tasks [] t)) [] :=
      rfl
    rw [hrw, getKey_foldl_setKey]
    cases (tasks.filter (fun t => t.title == T)).getLast? with
    | none => simp [getKey]
    | some t => simp
  · have hrw : buildTitleMap tasks
        = tasks.foldl (fun m t => setKey m t.title ((fun t => t) t)) [] := rfl
    rw [hrw, getKey_foldl_setKey]
    cases (tasks.filter (fun t => t.title == T)).getLast? with
    | none => simp [getKey]
    | some t => simp

/-- Referential integrity (§3 of the design): every dependency id of every
stored task names a stored task. -/
def closedDeps (store : Store) : Prop :=
  ∀ t ∈ store, ∀ d ∈ t.dependencies, d ∈ storeIds store

/-- A successful lookup returns a member of the store bearing the id. -/
theorem findTask_mem {store : Store} {id : String} {t : Task}
    (h : findTask store id = some t) : t ∈ store ∧ t.id = id :=
  ⟨List.mem_of_find?_eq_some h, by simpa using List.find?_some h⟩

/-- A lookup of a stored id succeeds. -/
theorem findTask_isSome_of_mem {store : Store} {id : String}
    (h : id ∈ storeIds store) : (findTask store id).isSome := by
  rcases List.mem_map.mp h with ⟨t, ht, rfl⟩
  exact List.find?_isSome.mpr ⟨t, ht, by simp⟩

/-- Every id the critical-path DFS puts on a path, and every id it marks
visited, names a stored task — provided the start id does, the visited set
already does, and the store is referentially closed. -/
theorem dfs_ids_subset (store : Store) (hc : closedDeps store) :
    ∀ (fuel : Nat) (taskId : String) (s : DfsState),
      taskId ∈ storeIds store →
      (∀ x ∈ s.visited, x ∈ storeIds store) →
      (∀ x ∈ (dfs store fuel taskId s).1, x ∈ storeIds store)
        ∧ (∀ x ∈ (dfs store fuel taskId s).2.visited, x ∈ storeIds store) := by
  intro fuel
  induction fuel with
  | zero =>
    intro taskId s _ hv
    refine ⟨?_, ?_⟩
    · intro x hx; simp [dfs] at hx
    · intro x hx
      simp only [dfs] at hx
      exact hv x hx
  | succ fuel ih =>
    intro taskId s hid hv
    by_cases hvis : s.visited.contains taskId
    · constructor
      · intro x hx
        simp only [dfs, hvis, if_true] at hx
        rcases (by split at hx <;> simp_all : x = taskId) with rfl
        exact hid
      · intro x hx
        simp only [dfs, hvis, if_true] at hx
        exact hv x hx
    · have hvis' : s.visited.contains taskId = false := by
        simpa using hvis
      have hsome := findTask_isSome_of_mem hid
      match hfd : findTask store taskId with
      | none => rw [hfd] at hsome; simp at hsome
      | some task =>
        have htask : task ∈ store := (findTask_mem hfd).1
        have hv1 : ∀ x ∈ taskId :: s.visited, x ∈ storeIds store := by
          intro x hx
          rcases List.mem_cons.mp hx with rfl | hx
          · exact hid
          · exact hv x hx
        by_cases hde : task.dependencies.isEmpty
        · constructor
          · intro x hx
            simp only [dfs, hvis', Bool.false_eq_true, if_false, hfd, hde,
              if_true] at hx
            rcases List.mem_singleton.mp hx with rfl
            exact hid
          · intro x hx
            simp only [dfs, hvis', Bool.false_eq_true, if_false, hfd, hde,
              if_true] at hx
            exact hv1 x hx
        · have hde' : task.dependencies.isEmpty = false := by simpa using hde
          have hdeps : ∀ d ∈ task.dependencies, d ∈ storeIds store :=
            hc task htask
          have inner : ∀ (deps : List String),
              (∀ d ∈ deps, d ∈ storeIds store) →
              ∀ (acc : List String × DfsState),
              (∀ x ∈ acc.1, x ∈ storeIds store) →
              (∀ x ∈ acc.2.visited, x ∈ storeIds store) →
              (∀ x ∈ (deps.foldl
                  (fun (acc : List String × DfsState) depId =>
                    let d := dfs store fuel depId acc.2
                    if d.1.length > acc.1.length then d else (acc.1, d.2))
                  acc).1, x ∈ storeIds store)
                ∧ (∀ x ∈ (deps.foldl
                  (fun (acc : List String × DfsState) depId =>
                    let d := dfs store fuel depId acc.2
                    if d.1.length > acc.1.length then d else (acc.1, d.2))
                  acc).2.visited, x ∈ storeIds store) := by
            intro deps
            induction deps with
            | nil => intro _ acc h1 h2; exact ⟨h1, h2⟩
            | cons d rest ihd =>
              intro hd acc h1 h2
              rw [List.foldl_cons]
              have hdr := ih d acc.2 (hd d (List.mem_cons_self d rest)) h2
              have hrest : ∀ x ∈ rest, x ∈ storeIds store :=
                fun x hx => hd x (List.mem_cons_of_mem d hx)
              by_cases hgt : (dfs store fuel d acc.2).1.length > acc.1.length
              · have : (let c := dfs store fuel d acc.2;
                    if c.1.length > acc.1.length then c else (acc.1, c.2))
                    = dfs store fuel d acc.2 := by
                  simp only [if_pos hgt]
                rw [this]
                exact ihd hrest _ hdr.1 hdr.2
              · have : (let c := dfs store fuel d acc.2;
                    if c.1.length > acc.1.length then c else (acc.1, c.2))
                    = (acc.1, (dfs store fuel d acc.2).2) := by
                  simp only [if_neg hgt]
                rw [this]
                exact ihd hrest _ h1 hdr.2
          have hfold := inner task.dependencies hdeps
            ([], ⟨taskId :: s.visited, s.pathLengths⟩)
            (by intro x hx; simp at hx) hv1
          constructor
          · intro x hx
            simp only [dfs, hvis', Bool.false_eq_true, if_false, hfd, hde',
              List.mem_append] at hx
            rcases hx with hx | hx
            · exact hfold.1 x hx
            · rcases List.mem_singleton.mp hx with rfl
              exact hid
          · intro x hx
            simp only [dfs, hvis', Bool.false_eq_true, if_false, hfd,
              hde'] at hx
            exact hfold.2 x hx

/-- On a referentially closed store, every entry of the computed critical
path is the title of a stored task. -/
theorem findCriticalPath_titles (store : Store) (hc : closedDeps store) :
    ∀ ttl ∈ findCriticalPath store, ∃ t ∈ store, t.title = ttl := by
  have inner : ∀ (l : List Task), (∀ task ∈ l, task.id ∈ storeIds store) →
      ∀ (acc : List String × DfsState),
      (∀ x ∈ acc.1, x ∈ storeIds store) →
      (∀ x ∈ acc.2.visited, x ∈ storeIds store) →
      (∀ x ∈ (l.foldl
          (fun (acc : List String × DfsState) task =>
            if acc.2.visited.contains task.id then acc
            else
              let d := dfs store (graphFuel store) task.id acc.2
              if d.1.length > acc.1.length then d else (acc.1, d.2))
          acc).1, x ∈ storeIds store) := by
    intro l
    induction l with
    | nil => intro _ acc h1 _; exact h1
    | cons a l ihl =>
      intro hl acc h1 h2
      rw [List.foldl_cons]
      have ha : a.id ∈ storeIds store := hl a (List.mem_cons_self a l)
      have hl' : ∀ task ∈ l, task.id ∈ storeIds store :=
        fun task h => hl task (List.mem_cons_of_mem a h)
      by_cases hvis : acc.2.visited.contains a.id
      · rw [if_pos hvis]
        exact ihl hl' acc h1 h2
      · rw [if_neg hvis]
        have hdr := dfs_ids_subset store hc (graphFuel store) a.id acc.2 ha h2
        by_cases hgt : (dfs store (graphFuel store) a.id acc.2).1.length
            > acc.1.length
        · have : (let d := dfs store (graphFuel store) a.id acc.2;
              if d.1.length > acc.1.length then d else (acc.1, d.2))
              = dfs store (graphFuel store) a.id acc.2 := by
            simp only [if_pos hgt]
          rw [this]
          exact ihl hl' _ hdr.1 hdr.2
        · have : (let d := dfs store (graphFuel store) a.id acc.2;
              if d.1.length > acc.1.length then d else (acc.1, d.2))
              = (acc.1, (dfs store (graphFuel store) a.id acc.2).2) := by
            simp only [if_neg hgt]
          rw [this]
          exact ihl hl' _ h1 hdr.2
  intro ttl httl
  unfold findCriticalPath at httl
  rcases List.mem_map.mp httl with ⟨id, hid, hmap⟩
  have hids : id ∈ storeIds store := by
    refine inner store (fun task h => List.mem_map.mpr ⟨task, h, rfl⟩)
      ([], ⟨[], []⟩) ?_ ?_ id hid
    · intro x hx; simp at hx
    · intro x hx; simp at hx
  have hsome := findTask_isSome_of_mem hids
  match hfd : findTask store id with
  | none => rw [hfd] at hsome; simp at hsome
  | some t =>
    rw [hfd] at hmap
    exact ⟨t, (findTask_mem hfd).1, hmap⟩

/-- With pairwise-distinct titles, the last and the first task bearing a
title coincide. -/
theorem getLast_filter_eq_find_of_nodup (tasks : Store)
    (hT : (tasks.map (fun t => t.title)).Nodup) (T : String) :
    (tasks.filter (fun t => t.title == T)).getLast?
      = tasks.find? (fun t => t.title == T) := by
  induction tasks with
  | nil => rfl
  | cons a l ih =>
    simp only [List.map_cons, List.nodup_cons] at hT
    cases pa : a.title == T with
    | true =>
      have paP : a.title = T := by simpa using pa
      have hl : l.filter (fun t => t.title == T) = [] := by
        rw [List.filter_eq_nil_iff]
        intro u hu huT
        have : u.title = T := by simpa using huT
        exact hT.1 (List.mem_map.mpr ⟨u, hu, this.trans paP.symm⟩)
      rw [List.filter_cons, if_pos pa, hl, List.getLast?_singleton]
      exact (List.find?_cons_of_pos l pa).symm
    | false =>
      rw [List.filter_cons, if_neg (by simp [pa]),
        List.find?_cons_of_neg _ (by simp [pa])]
      exact ih hT.2

/-- The duration fold is the sum of the per-entry contributions. -/
theorem duration_foldl_eq_sum (now : Int) (tasks : Store) :
    ∀ (cp : List String) (acc : Int),
      cp.foldl
        (fun totalDays title =>
          match getKey (buildTitleMap tasks) title with
          | some task => totalDays + max 1 (ceilDiv (task.dueDate - now) msPerDay)
          | none => totalDays) acc
      = acc + (cp.map (fun title =>
          match getKey (buildTitleMap tasks) title with
          | some task => max 1 (ceilDiv (task.dueDate - now) msPerDay)
          | none => (0 : Int))).sum := by
  intro cp
  induction cp with
  | nil => intro acc; simp
  | cons a cp ih =>
    intro acc
    rw [List.foldl_cons, List.map_cons, List.sum_cons]
    cases h : getKey (buildTitleMap tasks) a with
    | none => rw [ih, zero_add]
    | some task => rw [ih, add_assoc]

/-- The duration computation's title lookup resolves to the last task
bearing the title. -/
theorem getKey_buildTitleMap (tasks : Store) (T : String) :
    getKey (buildTitleMap tasks) T
      = (tasks.filter (fun t => t.title == T)).getLast? := by
  have hrw : buildTitleMap tasks
      = tasks.foldl (fun m t => setKey m t.title ((fun t => t) t)) [] := rfl
  rw [hrw, getKey_foldl_setKey]
  cases (tasks.filter (fun t => t.title == T)).getLast? with
  | none => simp [getKey]
  | some t => simp

/-- C8.  On an analysis input with pairwise-distinct titles and
referentially closed dependencies, the returned total duration is exactly
the sum, over the critical-path entries (each of which is the title of an
input task), of `max(1, ceil((dueDate - now) / msPerDay))` for the task
bearing that title — overdue tasks contribute the floor of one day — and
an empty critical path yields duration 0. -/
theorem total_duration_spec (now : Int) (tasks : Store)
    (hT : (tasks.map (fun t => t.title)).Nodup) (hc : closedDeps tasks) :
    calculateTotalDuration now tasks (findCriticalPath tasks)
      = ((findCriticalPath tasks).map (fun ttl =>
          match tasks.find? (fun t => t.title == ttl) with
          | some t => max 1 (ceilDiv (t.dueDate - now) msPerDay)
          | none => (0 : Int))).sum
    ∧ (∀ ttl ∈ findCriticalPath tasks, ∃ t ∈ tasks, t.title = ttl)
    ∧ calculateTotalDuration now tasks [] = 0 := by
  refine ⟨?_, findCriticalPath_titles tasks hc, by simp [calculateTotalDuration]⟩
  have hfun : (fun ttl =>
      match getKey (buildTitleMap tasks) ttl with
      | some task => max 1 (ceilDiv (task.dueDate - now) msPerDay)
      | none => (0 : Int))
      = (fun ttl =>
      match tasks.find? (fun t => t.title == ttl) with
      | some t => max 1 (ceilDiv (t.dueDate - now) msPerDay)
      | none => (0 : Int)) := by
    funext ttl
    rw [getKey_buildTitleMap, getLast_filter_eq_find_of_nodup tasks hT ttl]
  cases hcp : findCriticalPath tasks with
  | nil => simp [calculateTotalDuration]
  | cons a cp =>
    have hne : ((a :: cp : List String)).isEmpty = false := rfl
    unfold calculateTotalDuration
    rw [hne]
    simp only [Bool.false_eq_true, if_false]
    rw [duration_foldl_eq_sum now tasks (a :: cp) 0, hfun, zero_add]

/-- Witness for C8 on the four-task chain: the analysis input has distinct
titles and closed dependencies, and the total duration equals the
per-title sum along the returned critical path. -/
theorem total_duration_spec_witness :
    calculateTotalDuration 0 [chainD, chainC, chainB, chainA]
        (findCriticalPath [chainD, chainC, chainB, chainA])
      = ((findCriticalPath [chainD, chainC, chainB, chainA]).map (fun ttl =>
          match List.find? (fun t => t.title == ttl)
              [chainD, chainC, chainB, chainA] with
          | some t => max 1 (ceilDiv (t.dueDate - 0) msPerDay)
          | none => (0 : Int))).sum :=
  (total_duration_spec 0 [chainD, chainC, chainB, chainA]
    (by decide) (by unfold closedDeps storeIds; decide)).1

end TaskFlow
